import Mathlib

/-!
Shallow embedding of the Liar's Poker rule engine (repository `liars`),
covering `src/liars/action.py`, `src/liars/number.py` and `src/liars/game.py`.
Pure functions are translated to Lean functions; the round loop of
`Game.play`, which consumes the players' moves on demand, is driven by the
list of actions the players return in turn order; the randomness consumed by
`np.random` is passed in explicitly.
-/

namespace Liars

/-- Model of `action.py` `Action`: a frozen dataclass with three boolean tags
and optional `count`/`digit` fields, all defaulting to falsy/None. -/
structure Action where
  is_exact : Bool := false
  is_bullshit : Bool := false
  is_bet : Bool := false
  count : Option Int := none
  digit : Option Int := none
deriving DecidableEq

/-- Model of `Action.__post_init__` (action.py lines 23-40): the constructor
succeeds iff exactly one tag is set, and a bet has a count that is `some c`
with `c ≥ 1` and a digit that is `some d` with `0 ≤ d ≤ 9`. -/
def Action.valid (a : Action) : Bool :=
  ((cond a.is_exact 1 0) + (cond a.is_bullshit 1 0) + (cond a.is_bet 1 0) == 1)
    && (!a.is_bet
        || match a.count, a.digit with
           | some c, some d => (1 ≤ c) && (0 ≤ d) && (d ≤ 9)
           | _, _ => false)

/-- Model of `make_bet` (action.py lines 69-71). -/
def make_bet (count digit : Int) : Action :=
  { is_bet := true, count := some count, digit := some digit }

/-- Model of `make_bullshit` (action.py lines 74-76). -/
def make_bullshit : Action :=
  { is_bullshit := true }

/-- Model of `make_exact` (action.py lines 79-81). -/
def make_exact : Action :=
  { is_exact := true }

/-- Strict `>` on the optional int fields of an `Action`. In Python comparing
`None` with `>` raises TypeError; that case is unreachable here because every
action that reaches a comparison is a constructor-validated bet, whose fields
are non-None. -/
def ogt : Option Int → Option Int → Bool
  | some a, some b => a > b
  | _, _ => false

/-- Equality test between an optional int field and an int. In Python
`None == x` is `False` for an int `x`, which this mirrors. -/
def oeq : Option Int → Int → Bool
  | some a, b => a == b
  | none, _ => false

/-- Errors raised by the engine. `invalidRaise` and `actionAfterTerminal` are
the two `ValueError`s of `ensure_valid_raise`; `firstMoveNotBet` is the
`RuntimeError` of `Game.play`; `noMove` marks the supply of modelled moves
running out, which has no counterpart in the source (a player always returns
an action when asked). -/
inductive GameError where
  | invalidRaise
  | actionAfterTerminal
  | firstMoveNotBet
  | noMove
deriving DecidableEq

/-- Model of `ensure_valid_raise` (action.py lines 52-66): with no previous
bet any bet is accepted; a previous non-bet action raises; otherwise the new
bet must strictly increase the digit or the count. -/
def ensure_valid_raise (bet : Action) (previous_bet : Option Action) :
    Except GameError Unit :=
  match previous_bet with
  | none => .ok ()
  | some prev =>
      if prev.is_bet = false then .error .actionAfterTerminal
      else if !(ogt bet.digit prev.digit || ogt bet.count prev.count) then
        .error .invalidRaise
      else .ok ()

/-- Model of `NUM_DIGITS` (number.py line 5). -/
def NUM_DIGITS : Nat := 8

/-- The digit string produced by `to_str` (number.py lines 8-10) for a number
below `10 ^ NUM_DIGITS`: the 8 base-10 digits of `x`, most significant first
(zero padding included). -/
def to_str_digits (x : Nat) : List Nat :=
  (List.range NUM_DIGITS).map (fun i => x / 10 ^ (NUM_DIGITS - 1 - i) % 10)

/-- Model of `to_counts` (number.py lines 13-18): the occurrence vector over
digits 0-9 of the digit string of `x`. The source accumulates into a
`np.uint8` vector; counts never exceed 8, so no wraparound occurs. -/
def to_counts (x : Nat) : List Nat :=
  (List.range 10).map (fun d => (to_str_digits x).count d)

/-- Model of `np.sum([to_counts(number) for number in numbers], axis=0)`
(game.py line 99): the elementwise sum of the players' digit-count vectors.
numpy promotes the uint8 inputs to the platform integer, so the sums do not
wrap. -/
def total_counts (numbers : List Nat) : List Nat :=
  numbers.foldr (fun x acc => List.zipWith (· + ·) (to_counts x) acc)
    (List.replicate 10 0)

/-- Indexing `total_counts[digit]` (game.py lines 127, 135) for the digit
field of a bet. A constructor-validated bet has digit `some d` with
`0 ≤ d ≤ 9`, inside the vector's bounds; a `none` digit would raise TypeError
in the source and is unreachable. -/
def tcAt (tc : List Nat) (digit : Option Int) : Nat :=
  match digit with
  | some d => tc.getD d.toNat 0
  | none => 0

/-- The core game loop of `Game.play` (game.py lines 101-139), driven by the
list of actions the players return in turn order. `cur` is the index of the
player about to move (the loop's `next(self.player_generator)` yields it, and
after each move the next mover is `(cur + 1) % n`); `prev` is the last logged
bet together with its maker's index. Returns the winner index, `-1` for a
tie. -/
def gameLoop (n : Nat) (tc : List Nat) :
    List Action → Nat → Option (Nat × Action) → Except GameError Int
  | [], _, _ => .error .noMove
  | a :: rest, cur, prev =>
      if a.is_bet then
        match ensure_valid_raise a (prev.map Prod.snd) with
        | .error e => .error e
        | .ok _ => gameLoop n tc rest ((cur + 1) % n) (some (cur, a))
      else
        match prev with
        | none => .error .firstMoveNotBet
        | some (pidx, pact) =>
            if a.is_exact then
              if oeq pact.count ((tcAt tc pact.digit : Nat) : Int) then .ok (-1)
              else .ok (pidx : Int)
            else
              if ogt pact.count (some ((tcAt tc pact.digit : Nat) : Int)) then
                .ok (cur : Int)
              else .ok (pidx : Int)

/-- The end-of-round notification results (game.py lines 144-155): for each
player index, `-1` (tie) when the winner index is the sentinel `-1`, else `1`
(win) for the winner's index and `0` (loss) for everyone else. -/
def end_results (n : Nat) (winner_idx : Int) : List Int :=
  (List.range n).map
    (fun (idx : Nat) => if winner_idx = -1 then -1
                        else if winner_idx = (idx : Int) then 1 else 0)

/-- The set accumulated by the while loop of `get_random_numbers` (number.py
lines 28-31) after consuming the draws in `l`: each iteration adds one result
of `get_random_number()` to the set. -/
def grn_set : List Nat → Finset Nat
  | [] => ∅
  | d :: l => insert d (grn_set l)

/-- The while-loop guard of `get_random_numbers` (number.py line 29): the
loop keeps running as long as the set holds fewer than `n` numbers. -/
def grn_continues (n : Nat) (l : List Nat) : Bool :=
  (grn_set l).card < n

/-- The fast-forward loop of `Game.play` (game.py lines 88-91): repeatedly
take the next index from the cycling player generator until `(idx + 1) % n`
equals the chosen first index. `cur` counts how many indices the generator
has yielded so far, so the next yield is `cur % n`; `fuel` bounds how many
iterations are modelled. Returns the index the loop breaks at, or `none` when
it has not exited within `fuel` iterations. -/
def fast_forward (n : Nat) (first_idx : Int) : Nat → Nat → Option Nat
  | _, 0 => none
  | cur, fuel + 1 =>
      if (((cur % n + 1) % n : Nat) : Int) = first_idx then some (cur % n)
      else fast_forward n first_idx (cur + 1) fuel

/-- The inputs one call of `Game.play` consumes: the secret numbers assigned
to the players (game.py line 76), the actions the players return in turn
order, and the `np.random.randint` value drawn when no `first_move` is
supplied (game.py line 86). -/
structure RoundEnv where
  numbers : List Nat
  moves : List Action
  rand : Nat

/-- First-mover selection of `Game.play` (game.py lines 83-86): an explicit
`first_move` is used as is; otherwise `np.random.randint(len(self.players))`
draws uniformly from `[0, n)`, modelled as the injected draw reduced into
that range. -/
def first_idx_of (n : Nat) (first_move : Option Int) (rand : Nat) : Int :=
  match first_move with
  | some i => i
  | none => ((rand % n : Nat) : Int)

/-- Outcome of one `Game.play` call: the winner index (`-1` for a tie), a
raised error, or divergence of the fast-forward loop (which, per
`fast_forward_spec`, happens exactly when the first index lies outside
`[0, n)`). -/
inductive PlayResult where
  | ok (w : Int)
  | err (e : GameError)
  | diverge
deriving DecidableEq

/-- Model of `Game.play` (game.py lines 53-157): pick the first mover, fast
forward the player cycle to it (starting the core loop at `first_idx`; the
loop exits there exactly when `first_idx ∈ [0, n)`, else the call diverges),
then run the core loop over the total digit counts of the assigned
numbers. -/
def play (n : Nat) (env : RoundEnv) (first_move : Option Int) : PlayResult :=
  let fi := first_idx_of n first_move env.rand
  if 0 ≤ fi ∧ fi < (n : Int) then
    match gameLoop n (total_counts env.numbers) env.moves fi.toNat none with
    | .ok w => .ok w
    | .error e => .err e
  else .diverge

/-- Model of `Game.play_many` (game.py lines 159-181): play `k` rounds,
passing the previous round's winner index as the next round's `first_move`
(`None` after a tie), and collect the ordered winner indices. Round `i`
consumes `envs i`; an error or divergence in any round propagates out, giving
`none`. -/
def play_many (n : Nat) (envs : Nat → RoundEnv) :
    Nat → Nat → Option Int → Option (List Int)
  | 0, _, _ => some []
  | k + 1, i, last =>
      match play n (envs i) last with
      | .ok w =>
          (play_many n envs k (i + 1) (if w ≠ -1 then some w else none)).map
            (fun ws => w :: ws)
      | _ => none

/-- `Game.play_many` instrumented with a trace: for each round, the
`first_move` argument passed to `play`, the first-mover index actually used
inside it, and the winner index. Same recursion as `play_many`. -/
def play_many_trace (n : Nat) (envs : Nat → RoundEnv) :
    Nat → Nat → Option Int → Option (List (Option Int × Int × Int))
  | 0, _, _ => some []
  | k + 1, i, last =>
      match play n (envs i) last with
      | .ok w =>
          (play_many_trace n envs k (i + 1)
              (if w ≠ -1 then some w else none)).map
            (fun tr => (last, first_idx_of n last (envs i).rand, w) :: tr)
      | _ => none

/-- Decidable equality of round results, used to evaluate the engine on
concrete rounds. -/
instance : DecidableEq (Except GameError Int) := fun a b =>
  match a, b with
  | .ok x, .ok y =>
      if h : x = y then isTrue (congrArg Except.ok h)
      else isFalse (fun hh => h (Except.ok.inj hh))
  | .error x, .error y =>
      if h : x = y then isTrue (congrArg Except.error h)
      else isFalse (fun hh => h (Except.error.inj hh))
  | .ok _, .error _ => isFalse (fun hh => Except.noConfusion hh)
  | .error _, .ok _ => isFalse (fun hh => Except.noConfusion hh)

/-- Helper: the tie notification gives every player result -1. -/
lemma end_results_tie (n : Nat) : ∀ r ∈ end_results n (-1), r = -1 := by
  simp [end_results]

/-- Helper: with winner index j, player i < n is notified 1 exactly when
i = j, else 0. -/
lemma end_results_win (n j i : Nat) (hi : i < n) :
    (end_results n (j : Int)).getD i 0 = if i = j then 1 else 0 := by
  unfold end_results
  rw [List.getD_eq_getElem?_getD, List.getElem?_map, List.getElem?_range hi]
  have h1 : ¬((j : Int) = -1) := by omega
  by_cases h : i = j
  · simp [h, h1]
  · have h2 : ¬((j : Int) = (i : Int)) := by omega
    simp [h1, h2]
    omega

/-- C4: for well-formed bets, ensure_valid_raise against a previous bet
succeeds iff the digit or the count strictly increases, fails with
InvalidRaise otherwise, and accepts any bet when no previous bet exists. -/
theorem ensure_valid_raise_spec (b p : Action) (bc bd pc pd : Int)
    (hp : p.is_bet = true)
    (hbc : b.count = some bc) (hbd : b.digit = some bd)
    (hpc : p.count = some pc) (hpd : p.digit = some pd) :
    (ensure_valid_raise b (some p) = .ok () ↔ (bd > pd ∨ bc > pc)) ∧
    (¬(bd > pd ∨ bc > pc) →
      ensure_valid_raise b (some p) = .error .invalidRaise) ∧
    ensure_valid_raise b none = .ok () := by
  have hogd : ogt b.digit p.digit = decide (bd > pd) := by
    rw [hbd, hpd]; rfl
  have hogc : ogt b.count p.count = decide (bc > pc) := by
    rw [hbc, hpc]; rfl
  refine ⟨?_, ?_, rfl⟩ <;>
    simp only [ensure_valid_raise, hp, hogd, hogc] <;>
    by_cases h1 : bd > pd <;> by_cases h2 : bc > pc <;>
    simp [h1, h2]

/-- Witness for C4, exhibiting in particular a raise that increases the
digit while decreasing the count, which is accepted. -/
theorem ensure_valid_raise_spec_witness :
    (make_bet 2 3).is_bet = true ∧
    (make_bet 1 5).count = some 1 ∧ (make_bet 1 5).digit = some 5 ∧
    (make_bet 2 3).count = some 2 ∧ (make_bet 2 3).digit = some 3 ∧
    ((ensure_valid_raise (make_bet 1 5) (some (make_bet 2 3)) = .ok () ↔
        ((5 : Int) > 3 ∨ (1 : Int) > 2)) ∧
      (¬((5 : Int) > 3 ∨ (1 : Int) > 2) →
        ensure_valid_raise (make_bet 1 5) (some (make_bet 2 3)) =
          .error .invalidRaise) ∧
      ensure_valid_raise (make_bet 1 5) none = .ok ()) :=
  ⟨rfl, rfl, rfl, rfl, rfl,
    ensure_valid_raise_spec (make_bet 1 5) (make_bet 2 3) 1 5 2 3
      rfl rfl rfl rfl rfl⟩

/-- C9: a round whose first move is a terminal claim (Exact or Bullshit)
fails with the FirstMoveNotBet error and produces no winner. -/
theorem first_move_not_bet (n : Nat) (tc : List Nat) (a : Action)
    (rest : List Action) (cur : Nat)
    (hv : a.valid = true) (ht : a.is_exact = true ∨ a.is_bullshit = true) :
    gameLoop n tc (a :: rest) cur none = .error .firstMoveNotBet ∧
    ∀ w : Int, gameLoop n tc (a :: rest) cur none ≠ .ok w := by
  have hnb : a.is_bet = false := by
    obtain ⟨e, bs, bet, c, d⟩ := a
    simp only [Action.valid] at hv
    cases e <;> cases bs <;> cases bet <;> simp_all
  have hmain : gameLoop n tc (a :: rest) cur none = .error .firstMoveNotBet := by
    simp [gameLoop, hnb]
  exact ⟨hmain, fun w hw => by rw [hmain] at hw; exact Except.noConfusion hw⟩

/-- Witness for C9, at a concrete round opening with Exact. -/
theorem first_move_not_bet_witness :
    make_exact.valid = true ∧
    (make_exact.is_exact = true ∨ make_exact.is_bullshit = true) ∧
    (gameLoop 2 (total_counts [77777000, 11111111]) [make_exact] 0 none =
        .error .firstMoveNotBet ∧
      ∀ w : Int, gameLoop 2 (total_counts [77777000, 11111111])
        [make_exact] 0 none ≠ .ok w) :=
  ⟨by decide, Or.inl rfl,
    first_move_not_bet 2 (total_counts [77777000, 11111111]) make_exact [] 0
      (by decide) (Or.inl rfl)⟩

/-- C1: an Exact call after at least one bet resolves to a tie for every
player (winner sentinel -1) when the previous bet's count equals the actual
total count for its digit, and otherwise the previous bettor wins and all
other players lose. -/
theorem exact_resolution (n : Nat) (tc : List Nat) (rest : List Action)
    (cur pidx : Nat) (pbet : Action) (pc : Int)
    (hpc : pbet.count = some pc) (hn : pidx < n) :
    (pc = ((tcAt tc pbet.digit : Nat) : Int) →
      gameLoop n tc (make_exact :: rest) cur (some (pidx, pbet)) = .ok (-1) ∧
      ∀ r ∈ end_results n (-1), r = -1) ∧
    (pc ≠ ((tcAt tc pbet.digit : Nat) : Int) →
      gameLoop n tc (make_exact :: rest) cur (some (pidx, pbet)) =
        .ok (pidx : Int) ∧
      ∀ i : Nat, i < n →
        (end_results n (pidx : Int)).getD i 0 = if i = pidx then 1 else 0) := by
  have hq : oeq pbet.count ((tcAt tc pbet.digit : Nat) : Int) =
      decide (pc = ((tcAt tc pbet.digit : Nat) : Int)) := by
    rw [hpc]; rfl
  constructor
  · intro h
    refine ⟨?_, end_results_tie n⟩
    simp [gameLoop, make_exact, hq, h]
  · intro h
    refine ⟨?_, fun i hi => end_results_win n pidx i hi⟩
    simp [gameLoop, make_exact, hq, h]

/-- Witness for C1, at the spec's example: digit 7 occurs 5 times in total
and the previous bet is Bet(count=5, digit=7). -/
theorem exact_resolution_witness :
    (make_bet 5 7).count = some 5 ∧ 0 < 2 ∧
    (((5 : Int) = ((tcAt (total_counts [77777000, 11111111]) (make_bet 5 7).digit : Nat) : Int) →
        gameLoop 2 (total_counts [77777000, 11111111]) (make_exact :: [])
          1 (some (0, make_bet 5 7)) = .ok (-1) ∧
        ∀ r ∈ end_results 2 (-1), r = -1) ∧
      ((5 : Int) ≠ ((tcAt (total_counts [77777000, 11111111]) (make_bet 5 7).digit : Nat) : Int) →
        gameLoop 2 (total_counts [77777000, 11111111]) (make_exact :: [])
          1 (some (0, make_bet 5 7)) = .ok ((0 : Nat) : Int) ∧
        ∀ i : Nat, i < 2 →
          (end_results 2 ((0 : Nat) : Int)).getD i 0 = if i = 0 then 1 else 0)) :=
  ⟨rfl, by decide,
    exact_resolution 2 (total_counts [77777000, 11111111]) [] 1 0
      (make_bet 5 7) 5 rfl (by decide)⟩

/-- C2 counterexample: digit 7 occurs exactly 5 times in the total counts of
the two assigned numbers, the previous bet is Bet(count=6, digit=7) by player
0, and player 1 calls Exact; the round resolves to a win for player 0, the
previous bettor - not for the Exact-caller, as the claim states. -/
theorem exact_wrong_claim_counterexample :
    tcAt (total_counts [77777000, 11111111]) (some 7) = 5 ∧
    gameLoop 2 (total_counts [77777000, 11111111])
      [make_bet 6 7, make_exact] 0 none = .ok 0 ∧
    gameLoop 2 (total_counts [77777000, 11111111])
      [make_bet 6 7, make_exact] 0 none ≠ .ok 1 ∧
    end_results 2 0 = [1, 0] := by
  refine ⟨by decide, by decide, by decide, by decide⟩

/-- C2 amended: with digit 7 occurring 5 times in total and previous bet
Bet(count=6, digit=7), an Exact call resolves to a win for the previous
bettor, and every other player (the Exact-caller included) loses. -/
theorem exact_wrong_resolution (n : Nat) (tc : List Nat)
    (rest : List Action) (cur pidx : Nat)
    (h7 : tcAt tc (some 7) = 5) :
    gameLoop n tc (make_exact :: rest) cur (some (pidx, make_bet 6 7)) =
      .ok (pidx : Int) ∧
    ∀ i : Nat, i < n → i ≠ pidx →
      (end_results n (pidx : Int)).getD i 0 = 0 := by
  constructor
  · have hq : oeq (make_bet 6 7).count ((tcAt tc (make_bet 6 7).digit : Nat) : Int) = false := by
      simp [make_bet, oeq, tcAt] at h7 ⊢
      rw [h7]
      omega
    simp [gameLoop, make_exact, hq]
  · intro i hi hne
    rw [end_results_win n pidx i hi]
    simp [hne]

/-- Witness for the amended C2, on concrete numbers with 5 sevens. -/
theorem exact_wrong_resolution_witness :
    tcAt (total_counts [77777000, 11111111]) (some 7) = 5 ∧
    (gameLoop 2 (total_counts [77777000, 11111111])
        (make_exact :: []) 1 (some (0, make_bet 6 7)) = .ok ((0 : Nat) : Int) ∧
      ∀ i : Nat, i < 2 → i ≠ 0 →
        (end_results 2 ((0 : Nat) : Int)).getD i 0 = 0) :=
  ⟨by decide,
    exact_wrong_resolution 2 (total_counts [77777000, 11111111]) [] 1 0
      (by decide)⟩

/-- C3: a Bullshit call after at least one bet resolves to a win for the
challenger (the current mover) when the previous bet's count exceeds the
actual total count for its digit, and to a win for the previous bettor
otherwise. -/
theorem bullshit_resolution (n : Nat) (tc : List Nat) (rest : List Action)
    (cur pidx : Nat) (pbet : Action) (pc : Int)
    (hpc : pbet.count = some pc) :
    (pc > ((tcAt tc pbet.digit : Nat) : Int) →
      gameLoop n tc (make_bullshit :: rest) cur (some (pidx, pbet)) =
        .ok (cur : Int)) ∧
    (pc ≤ ((tcAt tc pbet.digit : Nat) : Int) →
      gameLoop n tc (make_bullshit :: rest) cur (some (pidx, pbet)) =
        .ok (pidx : Int)) := by
  have hg : ogt pbet.count (some ((tcAt tc pbet.digit : Nat) : Int)) =
      decide (pc > ((tcAt tc pbet.digit : Nat) : Int)) := by
    rw [hpc]; rfl
  constructor
  · intro h
    simp [gameLoop, make_bullshit, hg, h]
  · intro h
    have h' : ¬(pc > ((tcAt tc pbet.digit : Nat) : Int)) := not_lt.mpr h
    simp [gameLoop, make_bullshit, hg, h']

/-- Witness for C3, at the spec's example: 5 sevens in total, previous bet
Bet(count=6, digit=7); the overstatement branch applies. -/
theorem bullshit_resolution_witness :
    (make_bet 6 7).count = some 6 ∧
    (((6 : Int) > ((tcAt (total_counts [77777000, 11111111]) (make_bet 6 7).digit : Nat) : Int) →
        gameLoop 2 (total_counts [77777000, 11111111]) (make_bullshit :: [])
          1 (some (0, make_bet 6 7)) = .ok ((1 : Nat) : Int)) ∧
      ((6 : Int) ≤ ((tcAt (total_counts [77777000, 11111111]) (make_bet 6 7).digit : Nat) : Int) →
        gameLoop 2 (total_counts [77777000, 11111111]) (make_bullshit :: [])
          1 (some (0, make_bet 6 7)) = .ok ((0 : Nat) : Int))) :=
  ⟨rfl,
    bullshit_resolution 2 (total_counts [77777000, 11111111]) [] 1 0
      (make_bet 6 7) 6 rfl⟩

/-- Unfolding equation of the core loop on an empty move supply. -/
lemma gameLoop_nil (n : Nat) (tc : List Nat) (cur : Nat)
    (prev : Option (Nat × Action)) :
    gameLoop n tc [] cur prev = .error .noMove := rfl

/-- Unfolding equation of the core loop on one move. -/
lemma gameLoop_cons (n : Nat) (tc : List Nat) (a : Action)
    (rest : List Action) (cur : Nat) (prev : Option (Nat × Action)) :
    gameLoop n tc (a :: rest) cur prev =
      if a.is_bet then
        match ensure_valid_raise a (prev.map Prod.snd) with
        | .error e => .error e
        | .ok _ => gameLoop n tc rest ((cur + 1) % n) (some (cur, a))
      else
        match prev with
        | none => .error .firstMoveNotBet
        | some (pidx, pact) =>
            if a.is_exact then
              if oeq pact.count ((tcAt tc pact.digit : Nat) : Int) then .ok (-1)
              else .ok (pidx : Int)
            else
              if ogt pact.count (some ((tcAt tc pact.digit : Nat) : Int)) then
                .ok (cur : Int)
              else .ok (pidx : Int) := rfl

/-- Helper: the winner index returned by the core loop is the tie sentinel
or the index of one of the n players, provided the loop starts at a player
index and any logged previous bet was made by a player. -/
lemma gameLoop_winner_range (n : Nat) (tc : List Nat) :
    ∀ (moves : List Action) (cur : Nat) (prev : Option (Nat × Action)),
      cur < n → prev.all (fun p => p.1 < n) →
      ∀ w : Int, gameLoop n tc moves cur prev = .ok w →
        w = -1 ∨ ∃ j : Nat, j < n ∧ w = (j : Int)
  | [], cur, prev => by
      intro _ _ w h
      rw [gameLoop_nil] at h
      exact absurd h (by simp)
  | a :: rest, cur, prev => by
      intro hc hp w h
      rw [gameLoop_cons] at h
      by_cases hb : a.is_bet = true
      · rw [if_pos hb] at h
        cases hr : ensure_valid_raise a (prev.map Prod.snd) with
        | error e => rw [hr] at h; exact absurd h (by simp)
        | ok u =>
            rw [hr] at h
            exact gameLoop_winner_range n tc rest ((cur + 1) % n)
              (some (cur, a))
              (Nat.mod_lt _ (Nat.lt_of_le_of_lt (Nat.zero_le cur) hc))
              (by simpa using hc) w h
      · rw [if_neg hb] at h
        cases prev with
        | none => exact absurd h (by simp)
        | some p =>
            obtain ⟨pidx, pact⟩ := p
            have hpn : pidx < n := by simpa using hp
            replace h : (if a.is_exact = true then
                (if oeq pact.count ((tcAt tc pact.digit : Nat) : Int) = true
                  then (Except.ok (-1) : Except GameError Int)
                  else Except.ok (pidx : Int))
              else
                (if ogt pact.count (some ((tcAt tc pact.digit : Nat) : Int)) = true
                  then (Except.ok (cur : Int) : Except GameError Int)
                  else Except.ok (pidx : Int))) = Except.ok w := h
            by_cases he : a.is_exact = true
            · rw [if_pos he] at h
              by_cases ho : oeq pact.count ((tcAt tc pact.digit : Nat) : Int) = true
              · rw [if_pos ho] at h
                exact Or.inl (Except.ok.inj h).symm
              · rw [if_neg ho] at h
                exact Or.inr ⟨pidx, hpn, (Except.ok.inj h).symm⟩
            · rw [if_neg he] at h
              by_cases ho : ogt pact.count (some ((tcAt tc pact.digit : Nat) : Int)) = true
              · rw [if_pos ho] at h
                exact Or.inr ⟨cur, hc, (Except.ok.inj h).symm⟩
              · rw [if_neg ho] at h
                exact Or.inr ⟨pidx, hpn, (Except.ok.inj h).symm⟩

/-- C5: every completed round either has winner sentinel -1 with every
player notified Tie, or a single winner index among the n players with
exactly that player notified Win and all others Loss. -/
theorem round_outcome_invariant (n : Nat) (tc : List Nat)
    (moves : List Action) (cur : Nat) (prev : Option (Nat × Action)) (w : Int)
    (hc : cur < n) (hp : prev.all (fun p => p.1 < n))
    (h : gameLoop n tc moves cur prev = .ok w) :
    (w = -1 ∧ ∀ r ∈ end_results n w, r = -1) ∨
    (∃ j : Nat, j < n ∧ w = (j : Int) ∧
      ∀ i : Nat, i < n →
        (end_results n w).getD i 0 = if i = j then 1 else 0) := by
  rcases gameLoop_winner_range n tc moves cur prev hc hp w h with hw | ⟨j, hj, hw⟩
  · subst hw
    exact Or.inl ⟨rfl, end_results_tie n⟩
  · subst hw
    exact Or.inr ⟨j, hj, rfl, fun i hi => end_results_win n j i hi⟩

/-- Witness for C5, on a concrete completed round won by player 0. -/
theorem round_outcome_invariant_witness :
    (0 < 2) ∧
    ((none : Option (Nat × Action)).all (fun p => p.1 < 2) = true) ∧
    (gameLoop 2 (total_counts [11111111, 22222222])
      [make_bet 1 1, make_bullshit] 0 none = .ok ((0 : Nat) : Int)) ∧
    ((((0 : Nat) : Int) = -1 ∧
        ∀ r ∈ end_results 2 ((0 : Nat) : Int), r = -1) ∨
      (∃ j : Nat, j < 2 ∧ ((0 : Nat) : Int) = (j : Int) ∧
        ∀ i : Nat, i < 2 →
          (end_results 2 ((0 : Nat) : Int)).getD i 0 = if i = j then 1 else 0)) :=
  ⟨by decide, by decide, by decide,
    round_outcome_invariant 2 (total_counts [11111111, 22222222])
      [make_bet 1 1, make_bullshit] 0 none ((0 : Nat) : Int)
      (by decide) (by decide) (by decide)⟩

/-- Helper: summing a pointwise sum of two functions over a list splits. -/
lemma sum_map_add (l : List Nat) (f g : Nat → Nat) :
    (l.map (fun d => f d + g d)).sum = (l.map f).sum + (l.map g).sum := by
  induction l with
  | nil => simp
  | cons a l ih => simp [ih]; omega

/-- Helper: the histogram over digits 0-9 of a list of digits sums to the
list's length. -/
lemma sum_range_count (l : List Nat) (h : ∀ a ∈ l, a < 10) :
    ((List.range 10).map (fun d => l.count d)).sum = l.length := by
  induction l with
  | nil => simp
  | cons a l ih =>
      have ha : a < 10 := h a (List.mem_cons_self a l)
      have hl : ∀ b ∈ l, b < 10 := fun b hb => h b (List.mem_cons_of_mem a hb)
      have hcount : ∀ d : Nat, (a :: l).count d = l.count d + if d == a then 1 else 0 := by
        intro d
        by_cases hda : d = a
        · simp [List.count_cons, hda]
        · have had : ¬a = d := fun hh => hda hh.symm
          simp [List.count_cons, hda, had]
      have hmap : (List.range 10).map (fun d => (a :: l).count d) =
          (List.range 10).map (fun d => l.count d + if d == a then 1 else 0) := by
        exact List.map_congr_left (fun d _ => hcount d)
      rw [hmap, sum_map_add, ih hl]
      have hind : ((List.range 10).map (fun d => if d == a then 1 else 0)).sum = 1 := by
        interval_cases a <;> decide
      rw [hind]
      simp

/-- Helper: each modelled digit is a base-10 digit. -/
lemma to_str_digits_lt (x : Nat) : ∀ a ∈ to_str_digits x, a < 10 := by
  intro a ha
  simp only [to_str_digits, List.mem_map] at ha
  obtain ⟨i, _, rfl⟩ := ha
  exact Nat.mod_lt _ (by norm_num)

/-- Helper: a single number's digit counts sum to the digit width. -/
lemma to_counts_sum (x : Nat) : (to_counts x).sum = 8 := by
  unfold to_counts
  rw [sum_range_count _ (to_str_digits_lt x)]
  simp [to_str_digits, NUM_DIGITS]

/-- Helper: to_counts always has one entry per digit. -/
lemma to_counts_length (x : Nat) : (to_counts x).length = 10 := by
  simp [to_counts]

/-- Helper: zipWith (+) sums lengths-matched lists entrywise; total sum adds. -/
lemma sum_zipWith_add : ∀ (a b : List Nat), a.length = b.length →
    (List.zipWith (· + ·) a b).sum = a.sum + b.sum
  | [], [], _ => by simp
  | x :: a, y :: b, h => by
      simp only [List.zipWith_cons_cons, List.sum_cons]
      rw [sum_zipWith_add a b (by simpa using h)]
      omega
  | [], _ :: _, h => by simp at h
  | _ :: _, [], h => by simp at h

/-- Helper: the total counts vector always has 10 entries. -/
lemma total_counts_length (numbers : List Nat) :
    (total_counts numbers).length = 10 := by
  induction numbers with
  | nil => simp [total_counts]
  | cons x xs ih =>
      have : total_counts (x :: xs) =
          List.zipWith (· + ·) (to_counts x) (total_counts xs) := rfl
      rw [this, List.length_zipWith, to_counts_length, ih]
      simp

/-- C7: for any number below 10^8 the digit counts sum to exactly 8, and for
any list of such numbers the elementwise total of the digit-count vectors
sums to 8 times the number of players. -/
theorem digit_count_sums (x : Nat) (hx : x < 10 ^ 8) (numbers : List Nat)
    (hns : numbers.all (fun y => y < 10 ^ 8) = true) :
    (to_counts x).sum = 8 ∧
    (total_counts numbers).sum = 8 * numbers.length := by
  refine ⟨to_counts_sum x, ?_⟩
  clear hns
  induction numbers with
  | nil => simp [total_counts]
  | cons y ys ih =>
      have hstep : total_counts (y :: ys) =
          List.zipWith (· + ·) (to_counts y) (total_counts ys) := rfl
      rw [hstep, sum_zipWith_add _ _ (by rw [to_counts_length, total_counts_length]),
        to_counts_sum, ih]
      simp [Nat.mul_add]
      omega

/-- Witness for C7, at a concrete number and a concrete pair of numbers. -/
theorem digit_count_sums_witness :
    12345670 < 10 ^ 8 ∧
    ([0, 99999999].all (fun y => y < 10 ^ 8) = true) ∧
    ((to_counts 12345670).sum = 8 ∧
      (total_counts [0, 99999999]).sum = 8 * ([0, 99999999] : List Nat).length) :=
  ⟨by decide, by decide,
    digit_count_sums 12345670 (by decide) [0, 99999999] (by decide)⟩

/-- Helper: every number the loop has collected lies in the generator's
range when every draw does. -/
lemma grn_set_subset_range (l : List Nat)
    (h : ∀ a ∈ l, a < 10 ^ NUM_DIGITS) :
    grn_set l ⊆ Finset.range (10 ^ NUM_DIGITS) := by
  induction l with
  | nil => simp [grn_set]
  | cons d l ih =>
      intro a ha
      rw [grn_set, Finset.mem_insert] at ha
      rcases ha with rfl | ha
      · exact Finset.mem_range.mpr (h a (List.mem_cons_self a l))
      · exact ih (fun b hb => h b (List.mem_cons_of_mem d hb)) ha

/-- C6 (behavior at the failing input): when n exceeds the size of the
number space, the while-loop guard of get_random_numbers still holds after
any number of iterations - the set can never reach n distinct values - so
the loop never terminates and no error is ever raised. -/
theorem get_random_numbers_loops_forever (l : List Nat)
    (h : l.all (fun a => a < 10 ^ NUM_DIGITS) = true) :
    grn_continues (10 ^ NUM_DIGITS + 1) l = true := by
  have h' : ∀ a ∈ l, a < 10 ^ NUM_DIGITS := by
    intro a ha
    have := List.all_eq_true.mp h a ha
    exact of_decide_eq_true this
  have hcard : (grn_set l).card ≤ 10 ^ NUM_DIGITS := by
    calc (grn_set l).card ≤ (Finset.range (10 ^ NUM_DIGITS)).card :=
          Finset.card_le_card (grn_set_subset_range l h')
      _ = 10 ^ NUM_DIGITS := Finset.card_range _
  have : (grn_set l).card < 10 ^ NUM_DIGITS + 1 := Nat.lt_succ_of_le hcard
  simpa [grn_continues] using this

/-- Witness for C6's divergence theorem, after three concrete draws. -/
theorem get_random_numbers_loops_forever_witness :
    ([0, 1, 2].all (fun a => a < 10 ^ NUM_DIGITS) = true) ∧
    grn_continues (10 ^ NUM_DIGITS + 1) [0, 1, 2] = true :=
  ⟨by decide, get_random_numbers_loops_forever [0, 1, 2] (by decide)⟩

/-- Unfolding equation of the fast-forward loop with fuel left. -/
lemma fast_forward_succ (n : Nat) (first : Int) (cur fuel : Nat) :
    fast_forward n first cur (fuel + 1) =
      if (((cur % n + 1) % n : Nat) : Int) = first then some (cur % n)
      else fast_forward n first (cur + 1) fuel := rfl

/-- Helper: with a first index outside [0, n), the break condition never
holds, so the loop runs out of any amount of fuel. -/
lemma fast_forward_none (n : Nat) (first : Int) (hn : 0 < n)
    (hout : first < 0 ∨ (n : Int) ≤ first) :
    ∀ (fuel cur : Nat), fast_forward n first cur fuel = none
  | 0, _ => rfl
  | fuel + 1, cur => by
      rw [fast_forward_succ]
      have hlt : ((cur % n + 1 : Nat) % n) < n := Nat.mod_lt _ hn
      have hne : (((cur % n + 1 : Nat) % n : Nat) : Int) ≠ first := by
        rcases hout with h | h <;> omega
      rw [if_neg hne]
      exact fast_forward_none n first hn hout fuel (cur + 1)

/-- Helper: the fast-forward loop exits once some iteration within its fuel
satisfies the break condition. -/
lemma fast_forward_isSome_of_hit (n : Nat) (first : Int) :
    ∀ (fuel cur : Nat),
      (∃ i : Nat, i < fuel ∧ ((((cur + i) % n + 1 : Nat) % n : Nat) : Int) = first) →
      (fast_forward n first cur fuel).isSome = true
  | 0, cur => by
      rintro ⟨i, hi, _⟩
      exact absurd hi (Nat.not_lt_zero i)
  | fuel + 1, cur => by
      rintro ⟨i, hi, hcond⟩
      rw [fast_forward_succ]
      by_cases h0 : (((cur % n + 1 : Nat) % n : Nat) : Int) = first
      · rw [if_pos h0]; rfl
      · rw [if_neg h0]
        apply fast_forward_isSome_of_hit n first fuel (cur + 1)
        have hi0 : i ≠ 0 := by
          intro hz
          subst hz
          simp only [Nat.add_zero] at hcond
          exact h0 hcond
        obtain ⟨j, rfl⟩ := Nat.exists_eq_succ_of_ne_zero hi0
        refine ⟨j, by omega, ?_⟩
        have harr : cur + 1 + j = cur + (j + 1) := by omega
        rw [harr]
        exact hcond

/-- Helper: starting anywhere, within n iterations the generator reaches a
position whose successor index is any given player index t < n. -/
lemma ff_hit_exists (n : Nat) (hn : 0 < n) (cur t : Nat) (ht : t < n) :
    ∃ i : Nat, i < n ∧ (((cur + i) % n + 1 : Nat) % n) = t := by
  set r := (cur + 1) % n with hr
  have hrlt : r < n := Nat.mod_lt _ hn
  refine ⟨(t + n - r) % n, Nat.mod_lt _ hn, ?_⟩
  rw [Nat.mod_add_mod]
  have h1 : cur + (t + n - r) % n + 1 = (cur + 1) + (t + n - r) % n := by omega
  rw [h1, ← Nat.mod_add_mod, ← hr, Nat.add_mod_mod]
  have h2 : r + (t + n - r) = t + n := by omega
  rw [h2, Nat.add_mod_right, Nat.mod_eq_of_lt ht]

/-- C10: the fast-forward phase of play terminates only when the first
mover index lies in [0, n): outside that range the loop never exits for any
amount of fuel, while any index in [0, n) - an explicit one or the uniform
draw taken when first_move is None - is reached within n iterations. -/
theorem fast_forward_spec (n : Nat) (first : Int) (cur rand : Nat)
    (hn : 0 < n) :
    (first < 0 ∨ (n : Int) ≤ first →
      ∀ fuel : Nat, fast_forward n first cur fuel = none) ∧
    (0 ≤ first ∧ first < (n : Int) →
      (fast_forward n first cur n).isSome = true) ∧
    (fast_forward n (first_idx_of n none rand) cur n).isSome = true := by
  refine ⟨fun hout fuel => fast_forward_none n first hn hout fuel cur, ?_, ?_⟩
  · rintro ⟨h0, h1⟩
    have ht : first.toNat < n := by omega
    obtain ⟨i, hi, hcond⟩ := ff_hit_exists n hn cur first.toNat ht
    refine fast_forward_isSome_of_hit n first n cur ⟨i, hi, ?_⟩
    rw [hcond]
    exact Int.toNat_of_nonneg h0
  · have hr : first_idx_of n none rand = ((rand % n : Nat) : Int) := rfl
    have ht : rand % n < n := Nat.mod_lt _ hn
    obtain ⟨i, hi, hcond⟩ := ff_hit_exists n hn cur (rand % n) ht
    refine fast_forward_isSome_of_hit n _ n cur ⟨i, hi, ?_⟩
    rw [hcond, hr]

/-- Witness for C10 with three players, first mover 1. -/
theorem fast_forward_spec_witness :
    0 < 3 ∧
    (((1 : Int) < 0 ∨ (3 : Int) ≤ 1 →
        ∀ fuel : Nat, fast_forward 3 1 0 fuel = none) ∧
      ((0 : Int) ≤ 1 ∧ (1 : Int) < 3 →
        (fast_forward 3 1 0 3).isSome = true) ∧
      (fast_forward 3 (first_idx_of 3 none 5) 0 3).isSome = true) :=
  ⟨by decide, fast_forward_spec 3 1 0 5 (by decide)⟩

/-- Unfolding equation of play_many with rounds left. -/
lemma play_many_succ (n : Nat) (envs : Nat → RoundEnv) (k i : Nat)
    (last : Option Int) :
    play_many n envs (k + 1) i last =
      match play n (envs i) last with
      | .ok w =>
          (play_many n envs k (i + 1) (if w ≠ -1 then some w else none)).map
            (fun ws => w :: ws)
      | _ => none := rfl

/-- Unfolding equation of the instrumented play_many with rounds left. -/
lemma play_many_trace_succ (n : Nat) (envs : Nat → RoundEnv) (k i : Nat)
    (last : Option Int) :
    play_many_trace n envs (k + 1) i last =
      match play n (envs i) last with
      | .ok w =>
          (play_many_trace n envs k (i + 1)
              (if w ≠ -1 then some w else none)).map
            (fun tr => (last, first_idx_of n last (envs i).rand, w) :: tr)
      | _ => none := rfl

/-- Helper: a successful traced run of k+1 rounds splits into its first
round and a traced run of the remaining k rounds. -/
lemma play_many_trace_cons (n : Nat) (envs : Nat → RoundEnv) (k i : Nat)
    (last : Option Int) (tr : List (Option Int × Int × Int))
    (h : play_many_trace n envs (k + 1) i last = some tr) :
    ∃ w rest, play n (envs i) last = .ok w ∧
      tr = (last, first_idx_of n last (envs i).rand, w) :: rest ∧
      play_many_trace n envs k (i + 1) (if w ≠ -1 then some w else none) =
        some rest := by
  rw [play_many_trace_succ] at h
  cases hp : play n (envs i) last with
  | ok w =>
      rw [hp] at h
      obtain ⟨rest, hrest, heq⟩ := Option.map_eq_some'.mp h
      exact ⟨w, rest, rfl, heq.symm, hrest⟩
  | err e => rw [hp] at h; cases h
  | diverge => rw [hp] at h; cases h

/-- Helper: the winners returned by play_many are exactly the third
components of the trace, and the trace has one entry per round. -/
lemma play_many_trace_spec (n : Nat) (envs : Nat → RoundEnv) :
    ∀ (k i : Nat) (last : Option Int) (tr : List (Option Int × Int × Int)),
      play_many_trace n envs k i last = some tr →
      play_many n envs k i last = some (tr.map (fun e => e.2.2)) ∧
      tr.length = k
  | 0, i, last, tr => by
      intro h
      simp only [play_many_trace] at h
      cases h
      exact ⟨rfl, rfl⟩
  | k + 1, i, last, tr => by
      intro h
      obtain ⟨w, rest, hp, rfl, hrest⟩ := play_many_trace_cons n envs k i last tr h
      obtain ⟨h1, h2⟩ := play_many_trace_spec n envs k (i + 1)
        (if w ≠ -1 then some w else none) rest hrest
      refine ⟨?_, by simpa using h2⟩
      rw [play_many_succ, hp]
      show (play_many n envs k (i + 1)
          (if w ≠ -1 then some w else none)).map (fun ws => w :: ws) = _
      rw [h1]
      rfl

/-- Helper: the first entry of a successful trace records the first_move
argument the run was started with and the first mover derived from it. -/
lemma play_many_trace_head (n : Nat) (envs : Nat → RoundEnv) (k i : Nat)
    (last : Option Int) (e : Option Int × Int × Int)
    (rest : List (Option Int × Int × Int))
    (h : play_many_trace n envs k i last = some (e :: rest)) :
    e.1 = last ∧ e.2.1 = first_idx_of n last (envs i).rand := by
  cases k with
  | zero => simp only [play_many_trace] at h; cases h
  | succ k =>
      obtain ⟨w, rest', hp, heq, hrest⟩ :=
        play_many_trace_cons n envs k i last (e :: rest) h
      obtain ⟨he, -⟩ := List.cons.inj heq
      rw [he]
      exact ⟨rfl, rfl⟩

/-- Helper: adjacent trace entries are linked: round j+1 is started with the
winner of round j as its first_move argument (None after a tie), and its
first mover index is derived from that argument and round j+1's uniform
draw. -/
lemma play_many_trace_adjacent (n : Nat) (envs : Nat → RoundEnv) :
    ∀ (k i : Nat) (last : Option Int) (tr : List (Option Int × Int × Int)),
      play_many_trace n envs k i last = some tr →
      ∀ (j : Nat) (p q : Option Int × Int × Int),
        tr.get? j = some p → tr.get? (j + 1) = some q →
        (p.2.2 ≠ -1 → q.1 = some p.2.2) ∧ (p.2.2 = -1 → q.1 = none) ∧
        q.2.1 = first_idx_of n q.1 (envs (i + j + 1)).rand
  | 0, i, last, tr => by
      intro h j p q hp hq
      simp only [play_many_trace] at h
      cases h
      cases hp
  | k + 1, i, last, tr => by
      intro h j p q hp hq
      obtain ⟨w, rest, hpl, rfl, hrest⟩ :=
        play_many_trace_cons n envs k i last tr h
      cases j with
      | zero =>
          cases hp
          cases rest with
          | nil => cases hq
          | cons q' rest' =>
              have hq' : q' = q := by
                simpa using hq
              obtain ⟨hq1, hq2⟩ :=
                play_many_trace_head n envs k (i + 1) _ q' rest' hrest
              rw [hq'] at hq1 hq2
              have hiz : i + 0 + 1 = i + 1 := by omega
              rw [hiz]
              simp only [hq1, hq2]
              refine ⟨fun hw => by simp [hw], fun hw => by simp [hw], by trivial⟩
      | succ j =>
          have hp' : rest.get? j = some p := by simpa using hp
          have hq' : rest.get? (j + 1) = some q := by simpa using hq
          have := play_many_trace_adjacent n envs k (i + 1) _ rest hrest j p q hp' hq'
          have hiz : (i + 1) + j + 1 = i + (j + 1) + 1 := by omega
          rw [hiz] at this
          exact this

/-- C8: in a successful k-round run of play_many, round i+1 is started with
round i's winner as first mover whenever round i produced one; after a tie
round i+1's first mover is instead the injected uniform draw over the n
players; and play_many returns the ordered list of the k winner indices. -/
theorem play_many_first_mover (n : Nat) (envs : Nat → RoundEnv) (k : Nat)
    (tr : List (Option Int × Int × Int))
    (htr : play_many_trace n envs k 0 none = some tr) :
    play_many n envs k 0 none = some (tr.map (fun e => e.2.2)) ∧
    tr.length = k ∧
    ∀ (j : Nat) (p q : Option Int × Int × Int),
      tr.get? j = some p → tr.get? (j + 1) = some q →
      (p.2.2 ≠ -1 → q.1 = some p.2.2 ∧ q.2.1 = p.2.2) ∧
      (p.2.2 = -1 → q.1 = none ∧
        q.2.1 = (((envs (j + 1)).rand % n : Nat) : Int)) := by
  obtain ⟨h1, h2⟩ := play_many_trace_spec n envs k 0 none tr htr
  refine ⟨h1, h2, fun j p q hp hq => ?_⟩
  obtain ⟨ha, hb, hc⟩ :=
    play_many_trace_adjacent n envs k 0 none tr htr j p q hp hq
  have hz : (0 : Nat) + j + 1 = j + 1 := by omega
  rw [hz] at hc
  constructor
  · intro hw
    have hq1 := ha hw
    refine ⟨hq1, ?_⟩
    rw [hc, hq1]
    rfl
  · intro hw
    have hq1 := hb hw
    refine ⟨hq1, ?_⟩
    rw [hc, hq1]
    rfl

/-- Witness for C8: two rounds that both end in a tie, so the second round's
first mover comes from the injected uniform draw. -/
theorem play_many_first_mover_witness :
    (play_many_trace 2
        (fun i => ⟨[11111111, 22222222], [make_bet 8 1, make_exact], i⟩)
        2 0 none = some [(none, 0, -1), (none, 1, -1)]) ∧
    (play_many 2
        (fun i => ⟨[11111111, 22222222], [make_bet 8 1, make_exact], i⟩)
        2 0 none =
      some ([(none, 0, -1), (none, 1, -1)].map
        (fun (e : Option Int × Int × Int) => e.2.2)) ∧
    ([(none, 0, -1), (none, 1, -1)] : List (Option Int × Int × Int)).length = 2 ∧
    ∀ (j : Nat) (p q : Option Int × Int × Int),
      ([(none, 0, -1), (none, 1, -1)] : List (Option Int × Int × Int)).get? j = some p →
      ([(none, 0, -1), (none, 1, -1)] : List (Option Int × Int × Int)).get? (j + 1) = some q →
      (p.2.2 ≠ -1 → q.1 = some p.2.2 ∧ q.2.1 = p.2.2) ∧
      (p.2.2 = -1 → q.1 = none ∧
        q.2.1 = ((((fun i => (⟨[11111111, 22222222], [make_bet 8 1, make_exact], i⟩ : RoundEnv)) (j + 1)).rand % 2 : Nat) : Int))) :=
  ⟨by decide,
    play_many_first_mover 2
      (fun i => ⟨[11111111, 22222222], [make_bet 8 1, make_exact], i⟩)
      2 [(none, 0, -1), (none, 1, -1)] (by decide)⟩

end Liars
